import Mathlib

/-!
# Verification of the stock-scraper core (src/app/stock_scraper.py)

A shallow embedding of the program's core: the per-domain match policy
(`Domain`, `extract_domains`), the match evaluator (`Scraper.check_stock`),
the page-stabilization monitor (`Scraper.get_loaded_page`) and the sweep
structure of `main`.  External collaborators are modelled at their contract
surface:

* Python's `re` module is modelled over the fragment of its syntax the
  configuration can exercise: literal characters, `.`, and the postfix
  quantifiers `*`, `+`, `?`.  `parseRe` returns `none` outside the fragment
  (the other metacharacters `\ [ ] ( ) { } | ^ $` and dangling quantifiers),
  standing for `re.error`; this is conservative at the fragment boundary
  (real `re` accepts some of those strings).  Matching is by Brzozowski
  derivatives; `re.Pattern.search` is existential matching over substrings.
* BeautifulSoup's parsed document is a `List Node` forest; `Tag.find` with a
  class/id filter is first-match pre-order traversal over descendants
  (`find_class`, `find_id`), with `text=pattern` it is first-match over text
  nodes whose string the pattern `search`-matches (`find_text`).  A bs4 `Tag`
  defines `__bool__` as constantly `True` ("a tag is non-None even if it has
  no contents"), so the source's `if soup` tests are `soup is not None`.
* The Selenium render session is a sequence of DOM observations
  `dom : Nat → String`; Python's `hash` is an arbitrary `String → Int`.
-/

namespace StockScraper

/-! ## Python `re`, on the fragment the configuration exercises -/

/-- Regular expressions: the abstract syntax compiled from a configured
`value_` string.  `dot` is `re`'s `.` (any character except a newline);
`emp`/`alt` do not arise from parsing but are needed by derivatives and by
the desugaring of `?`. -/
inductive Regex where
  | emp : Regex
  | eps : Regex
  | lit : Char → Regex
  | dot : Regex
  | alt : Regex → Regex → Regex
  | cat : Regex → Regex → Regex
  | star : Regex → Regex
deriving Repr, DecidableEq

/-- Does the regex accept the empty string? -/
def nullable : Regex → Bool
  | .emp => false
  | .eps => true
  | .lit _ => false
  | .dot => false
  | .alt r s => nullable r || nullable s
  | .cat r s => nullable r && nullable s
  | .star _ => true

/-- Brzozowski derivative of a regex by one character. -/
def deriv : Regex → Char → Regex
  | .emp, _ => .emp
  | .eps, _ => .emp
  | .lit c, a => if a = c then .eps else .emp
  | .dot, a => if a = '\n' then .emp else .eps
  | .alt r s, a => .alt (deriv r a) (deriv s a)
  | .cat r s, a =>
      if nullable r then .alt (.cat (deriv r a) s) (deriv s a)
      else .cat (deriv r a) s
  | .star r, a => .cat (deriv r a) (.star r)

/-- Whole-string matching (`re.fullmatch` semantics) by derivatives. -/
def rmatch : Regex → List Char → Bool
  | r, [] => nullable r
  | r, c :: cs => rmatch (deriv r c) cs

/-- `re.Pattern.search` semantics: does the regex match some contiguous
substring of the text? -/
def searchB (r : Regex) (s : List Char) : Bool :=
  s.tails.any fun t => t.inits.any fun u => rmatch r u

/-- The regex `.*`, as produced by the wrapping in `extract_domains`. -/
def dotStar : Regex := .star .dot

/-- Metacharacters of `re` outside the modelled fragment: a raw string using
one is modelled as failing to compile. -/
def metaChars : List Char := ['\\', '[', ']', '(', ')', '{', '}', '|', '^', '$']

/-- One parsing step per character, keeping the atoms read so far in reverse
order so a postfix quantifier can attach to the previous atom. -/
def parseReAux : List Char → List Regex → Option (List Regex)
  | [], acc => some acc
  | c :: cs, acc =>
      if c = '.' then parseReAux cs (Regex.dot :: acc)
      else if c = '*' then
        match acc with
        | [] => none
        | a :: rest => parseReAux cs (Regex.star a :: rest)
      else if c = '+' then
        match acc with
        | [] => none
        | a :: rest => parseReAux cs (Regex.cat a (Regex.star a) :: rest)
      else if c = '?' then
        match acc with
        | [] => none
        | a :: rest => parseReAux cs (Regex.alt Regex.eps a :: rest)
      else if c ∈ metaChars then none
      else parseReAux cs (Regex.lit c :: acc)

/-- Concatenate the reversed atom list back into one regex. -/
def regexOfAtoms (acc : List Regex) : Regex :=
  acc.foldl (fun tail a => Regex.cat a tail) Regex.eps

/-- `re.compile` on the modelled fragment: `none` is `re.error`. -/
def parseRe (cs : List Char) : Option Regex :=
  (parseReAux cs []).map regexOfAtoms

/-- The pattern `extract_domains` builds from a raw configured string:
`re.compile(".*" + value_ + ".*")`.  The two `.*` wrappers are attached at
the syntax-tree level; a raw string whose leading character is a quantifier
(which real `re` would attach to the first `.*`) is already outside the
fragment `parseRe` accepts. -/
def compileValue (v : String) : Option Regex :=
  (parseRe v.toList).map fun r => .cat dotStar (.cat r dotStar)

/-- The compiled pattern of a configured value string, applied to a text by
`re.Pattern.search` (as bs4's text matcher does); `false` when the string
does not compile. -/
def patternMatches (v text : String) : Bool :=
  match compileValue v with
  | some r => searchB r text.toList
  | none => false

/-- A character the modelled parser treats as a plain literal. -/
def isLitChar (c : Char) : Bool :=
  !(c = '.' || c = '*' || c = '+' || c = '?' || c ∈ metaChars)

/-- The regex matching exactly one given character string. -/
def litSeq : List Char → Regex
  | [] => .eps
  | c :: cs => .cat (.lit c) (litSeq cs)

/-- Substring occurrence as the spec's "contains" match: the needle occurs
contiguously somewhere in the haystack. -/
def containsB (needle hay : List Char) : Bool :=
  hay.tails.any fun t => needle.isPrefixOf t

/-! ## Matching lemmas for the derivative matcher -/

theorem rmatch_nil (r : Regex) : rmatch r [] = nullable r := rfl

theorem rmatch_cons (r : Regex) (c : Char) (cs : List Char) :
    rmatch r (c :: cs) = rmatch (deriv r c) cs := rfl

theorem rmatch_emp (u : List Char) : rmatch .emp u = false := by
  induction u with
  | nil => rfl
  | cons c cs ih => simpa [rmatch, deriv] using ih

theorem rmatch_eps (u : List Char) : rmatch .eps u = true ↔ u = [] := by
  cases u with
  | nil => simp [rmatch, nullable]
  | cons c cs => simp [rmatch, deriv, rmatch_emp]

theorem rmatch_alt (u : List Char) : ∀ r s : Regex,
    rmatch (.alt r s) u = (rmatch r u || rmatch s u) := by
  induction u with
  | nil => intro r s; rfl
  | cons c cs ih => intro r s; simpa [rmatch, deriv] using ih (deriv r c) (deriv s c)

theorem rmatch_cat (u : List Char) : ∀ r s : Regex,
    rmatch (.cat r s) u = true ↔
      ∃ u₁ u₂, u = u₁ ++ u₂ ∧ rmatch r u₁ = true ∧ rmatch s u₂ = true := by
  induction u with
  | nil =>
      intro r s
      constructor
      · intro h
        refine ⟨[], [], rfl, ?_, ?_⟩ <;>
          simp_all [rmatch, nullable, Bool.and_eq_true]
      · rintro ⟨u₁, u₂, h, h₁, h₂⟩
        obtain ⟨rfl, rfl⟩ := List.append_eq_nil.mp h.symm
        simp_all [rmatch, nullable]
  | cons a u ih =>
      intro r s
      rw [rmatch_cons]
      by_cases hn : nullable r = true
      · simp only [deriv, hn, if_true]
        rw [rmatch_alt, Bool.or_eq_true, ih (deriv r a) s]
        constructor
        · rintro (⟨v₁, v₂, rfl, h₁, h₂⟩ | h)
          · exact ⟨a :: v₁, v₂, rfl, by rw [rmatch_cons]; exact h₁, h₂⟩
          · exact ⟨[], a :: u, rfl, by rw [rmatch_nil]; exact hn,
              by rw [rmatch_cons]; exact h⟩
        · rintro ⟨u₁, u₂, he, h₁, h₂⟩
          cases u₁ with
          | nil =>
              right
              rw [List.nil_append] at he
              rw [← he] at h₂
              rw [rmatch_cons] at h₂
              exact h₂
          | cons b v₁ =>
              left
              rw [List.cons_append] at he
              injection he with hb hu
              subst hb
              subst hu
              rw [rmatch_cons] at h₁
              exact ⟨v₁, u₂, rfl, h₁, h₂⟩
      · simp only [deriv, hn, Bool.false_eq_true, if_false]
        rw [ih (deriv r a) s]
        constructor
        · rintro ⟨v₁, v₂, rfl, h₁, h₂⟩
          exact ⟨a :: v₁, v₂, rfl, by rw [rmatch_cons]; exact h₁, h₂⟩
        · rintro ⟨u₁, u₂, he, h₁, h₂⟩
          cases u₁ with
          | nil =>
              rw [rmatch_nil] at h₁
              exact absurd h₁ hn
          | cons b v₁ =>
              rw [List.cons_append] at he
              injection he with hb hu
              subst hb
              subst hu
              rw [rmatch_cons] at h₁
              exact ⟨v₁, u₂, rfl, h₁, h₂⟩

theorem rmatch_lit (c : Char) (u : List Char) :
    rmatch (.lit c) u = true ↔ u = [c] := by
  cases u with
  | nil => simp [rmatch, nullable]
  | cons a cs =>
      rw [rmatch_cons]
      by_cases h : a = c
      · subst h
        simp [deriv, rmatch_eps]
      · simp [deriv, h, rmatch_emp, Ne.symm h]

theorem rmatch_litSeq (cs : List Char) : ∀ u,
    rmatch (litSeq cs) u = true ↔ u = cs := by
  induction cs with
  | nil => intro u; simpa [litSeq] using rmatch_eps u
  | cons c cs ih =>
      intro u
      rw [litSeq, rmatch_cat]
      constructor
      · rintro ⟨u₁, u₂, rfl, h₁, h₂⟩
        rw [rmatch_lit] at h₁
        rw [ih] at h₂
        simp [h₁, h₂]
      · rintro rfl
        exact ⟨[c], cs, rfl, (rmatch_lit c [c]).mpr rfl, (ih cs).mpr rfl⟩

theorem nullable_dotStar : nullable dotStar = true := rfl

theorem searchB_iff (r : Regex) (s : List Char) :
    searchB r s = true ↔ ∃ u, u <:+: s ∧ rmatch r u = true := by
  unfold searchB
  simp only [List.any_eq_true]
  constructor
  · rintro ⟨t, ht, u, hu, hm⟩
    refine ⟨u, ?_, hm⟩
    exact (List.mem_inits u t |>.mp hu).isInfix.trans (List.mem_tails t s |>.mp ht).isInfix
  · rintro ⟨u, hinf, hm⟩
    obtain ⟨l, rr, hlr⟩ := hinf
    refine ⟨u ++ rr, ?_, u, ?_, hm⟩
    · exact (List.mem_tails _ s).mpr ⟨l, by simpa [List.append_assoc] using hlr⟩
    · exact (List.mem_inits u _).mpr ⟨rr, rfl⟩

theorem searchB_wrap (r : Regex) (s : List Char) :
    searchB (.cat dotStar (.cat r dotStar)) s = true ↔
      ∃ u, u <:+: s ∧ rmatch r u = true := by
  rw [searchB_iff]
  constructor
  · rintro ⟨w, hw, hm⟩
    rw [rmatch_cat] at hm
    obtain ⟨a, bc, rfl, _, hbc⟩ := hm
    rw [rmatch_cat] at hbc
    obtain ⟨m, b, rfl, hmm, _⟩ := hbc
    exact ⟨m, List.IsInfix.trans ⟨a, b, by simp⟩ hw, hmm⟩
  · rintro ⟨u, hinf, hm⟩
    refine ⟨u, hinf, ?_⟩
    rw [rmatch_cat]
    refine ⟨[], u, rfl, rfl, ?_⟩
    rw [rmatch_cat]
    exact ⟨u, [], by simp, hm, rfl⟩

theorem containsB_iff (n h : List Char) : containsB n h = true ↔ n <:+: h := by
  unfold containsB
  simp only [List.any_eq_true]
  constructor
  · rintro ⟨t, ht, hp⟩
    exact (List.isPrefixOf_iff_prefix.mp hp).isInfix.trans (List.mem_tails t h |>.mp ht).isInfix
  · rintro ⟨l, rr, hlr⟩
    refine ⟨n ++ rr, (List.mem_tails _ h).mpr ⟨l, by simpa [List.append_assoc] using hlr⟩, ?_⟩
    exact List.isPrefixOf_iff_prefix.mpr ⟨rr, rfl⟩

/-- A search for the wrapped pattern of a literal string is exactly substring
occurrence of that string. -/
theorem searchB_wrap_litSeq (cs s : List Char) :
    searchB (.cat dotStar (.cat (litSeq cs) dotStar)) s = containsB cs s := by
  cases h : containsB cs s with
  | false =>
      rw [Bool.eq_false_iff]
      intro hc
      obtain ⟨u, hinf, hm⟩ := (searchB_wrap _ s).mp hc
      rw [rmatch_litSeq] at hm
      subst hm
      exact absurd ((containsB_iff u s).mpr hinf) (by simp [h])
  | true =>
      exact (searchB_wrap _ s).mpr
        ⟨cs, (containsB_iff cs s).mp h, (rmatch_litSeq cs cs).mpr rfl⟩

/-! ### Parsing a literal-only string -/

theorem isLitChar_spec (c : Char) (h : isLitChar c = true) :
    ¬c = '.' ∧ ¬c = '*' ∧ ¬c = '+' ∧ ¬c = '?' ∧ ¬c ∈ metaChars := by
  unfold isLitChar at h
  simp only [Bool.not_eq_true', Bool.or_eq_false_iff, decide_eq_false_iff_not] at h
  exact ⟨h.1.1.1.1, h.1.1.1.2, h.1.1.2, h.1.2, h.2⟩

theorem parseReAux_cons (c : Char) (cs : List Char) (acc : List Regex) :
    parseReAux (c :: cs) acc =
      (if c = '.' then parseReAux cs (Regex.dot :: acc)
       else if c = '*' then
         match acc with
         | [] => none
         | a :: rest => parseReAux cs (Regex.star a :: rest)
       else if c = '+' then
         match acc with
         | [] => none
         | a :: rest => parseReAux cs (Regex.cat a (Regex.star a) :: rest)
       else if c = '?' then
         match acc with
         | [] => none
         | a :: rest => parseReAux cs (Regex.alt Regex.eps a :: rest)
       else if c ∈ metaChars then none
       else parseReAux cs (Regex.lit c :: acc)) := rfl

theorem parseReAux_lit : ∀ (cs : List Char) (acc : List Regex),
    (∀ c ∈ cs, isLitChar c = true) →
    parseReAux cs acc = some ((cs.map Regex.lit).reverse ++ acc) := by
  intro cs
  induction cs with
  | nil => intro acc _; simp [parseReAux]
  | cons c cs ih =>
      intro acc h
      have hc : isLitChar c = true := h c (by simp)
      have hcs : ∀ a ∈ cs, isLitChar a = true := fun a ha => h a (by simp [ha])
      obtain ⟨h1, h2, h3, h4, h5⟩ := isLitChar_spec c hc
      rw [parseReAux_cons]
      rw [if_neg h1, if_neg h2, if_neg h3, if_neg h4, if_neg h5]
      rw [ih (Regex.lit c :: acc) hcs]
      simp

theorem regexOfAtoms_lit (cs : List Char) :
    regexOfAtoms ((cs.map Regex.lit).reverse) = litSeq cs := by
  unfold regexOfAtoms
  rw [List.foldl_reverse]
  induction cs with
  | nil => rfl
  | cons c cs ih => simp only [List.map_cons, List.foldr_cons, litSeq, ih]

theorem parseRe_lit (cs : List Char) (h : ∀ c ∈ cs, isLitChar c = true) :
    parseRe cs = some (litSeq cs) := by
  unfold parseRe
  rw [parseReAux_lit cs [] h]
  simp [regexOfAtoms_lit]

theorem compileValue_lit (v : String) (h : ∀ c ∈ v.toList, isLitChar c = true) :
    compileValue v = some (.cat dotStar (.cat (litSeq v.toList) dotStar)) := by
  unfold compileValue
  rw [parseRe_lit v.toList h]
  rfl

/-! ## The parsed page: BeautifulSoup's tree at its contract surface

`BeautifulSoup(markup, "lxml")` is modelled by the already-parsed tree: a
document is the forest of its top-level nodes.  `find` (with
`recursive=True`, the default) scans the scope's descendants in document
order — pre-order, а node before its children before its siblings — and
returns the first hit or `None`. -/

/-- A node of the parsed markup: an element with its tag name, its (multi-
valued) `class` attribute, its optional `id` attribute and its children, or
a text node (bs4 `NavigableString`). -/
inductive Node where
  | elem (tag : String) (classes : List String) (idAttr : Option String)
      (children : List Node) : Node
  | text (s : String) : Node
deriving Repr

/-- The children forest of a node (a text node has none). -/
def nodeChildren : Node → List Node
  | .elem _ _ _ ch => ch
  | .text _ => []

/-- Does an element node carry the given class?  (bs4's `class_` filter
matches any one of the element's classes; a text node never matches.) -/
def hasClass (c : String) : Node → Bool
  | .elem _ classes _ _ => c ∈ classes
  | .text _ => false

/-- Does an element node carry the given id? -/
def hasId (i : String) : Node → Bool
  | .elem _ _ idAttr _ => idAttr = some i
  | .text _ => false

/-- `scope.find(class_=c)`: first descendant element bearing class `c`, in
document order. -/
def find_class (c : String) : List Node → Option Node
  | [] => none
  | .text _ :: rest => find_class c rest
  | .elem t cls idv ch :: rest =>
      if c ∈ cls then some (.elem t cls idv ch)
      else
        match find_class c ch with
        | some n => some n
        | none => find_class c rest

/-- `scope.find(id=i)`: first descendant element with id `i`. -/
def find_id (i : String) : List Node → Option Node
  | [] => none
  | .text _ :: rest => find_id i rest
  | .elem t cls idv ch :: rest =>
      if idv = some i then some (.elem t cls idv ch)
      else
        match find_id i ch with
        | some n => some n
        | none => find_id i rest

/-- `scope.find(text=pattern)`: first descendant text node whose string the
compiled pattern `search`-matches; bs4 returns the `NavigableString`. -/
def find_text (r : Regex) : List Node → Option String
  | [] => none
  | .text s :: rest => if searchB r s.toList then some s else find_text r rest
  | .elem _ _ _ ch :: rest =>
      match find_text r ch with
      | some s => some s
      | none => find_text r rest

/-- All element nodes of a forest in document (pre-)order: the declarative
side of `find_class`/`find_id`. -/
def elemsIn : List Node → List Node
  | [] => []
  | .text _ :: rest => elemsIn rest
  | .elem t cls idv ch :: rest => .elem t cls idv ch :: (elemsIn ch ++ elemsIn rest)

/-- All text-node strings of a forest in document order: the declarative side
of `find_text`. -/
def textsIn : List Node → List String
  | [] => []
  | .text s :: rest => s :: textsIn rest
  | .elem _ _ _ ch :: rest => textsIn ch ++ textsIn rest

theorem find_class_eq (c : String) : ∀ ns : List Node,
    find_class c ns = (elemsIn ns).find? (hasClass c)
  | [] => by simp [find_class, elemsIn]
  | .text s :: rest => by
      simp only [find_class, elemsIn]
      exact find_class_eq c rest
  | .elem t cls idv ch :: rest => by
      have h1 := find_class_eq c ch
      have h2 := find_class_eq c rest
      by_cases hc : c ∈ cls
      · simp [find_class, elemsIn, hasClass, hc]
      · simp only [find_class, elemsIn, if_neg hc]
        rw [List.find?_cons_of_neg _ (by simp [hasClass, hc])]
        rw [List.find?_append, h1, h2]
        cases (elemsIn ch).find? (hasClass c) <;> rfl

theorem find_id_eq (i : String) : ∀ ns : List Node,
    find_id i ns = (elemsIn ns).find? (hasId i)
  | [] => by simp [find_id, elemsIn]
  | .text s :: rest => by
      simp only [find_id, elemsIn]
      exact find_id_eq i rest
  | .elem t cls idv ch :: rest => by
      have h1 := find_id_eq i ch
      have h2 := find_id_eq i rest
      by_cases hc : idv = some i
      · simp [find_id, elemsIn, hasId, hc]
      · simp only [find_id, elemsIn, if_neg hc]
        rw [List.find?_cons_of_neg _ (by simp [hasId, hc])]
        rw [List.find?_append, h1, h2]
        cases (elemsIn ch).find? (hasId i) <;> rfl

theorem find_text_eq (r : Regex) : ∀ ns : List Node,
    find_text r ns = (textsIn ns).find? (fun s => searchB r s.toList)
  | [] => by simp [find_text, textsIn]
  | .text s :: rest => by
      have h2 := find_text_eq r rest
      cases hs : searchB r s.toList
      · simp only [find_text, textsIn, hs, Bool.false_eq_true, if_false]
        rw [List.find?_cons_of_neg _ (by simp [String.toList] at hs; simp [hs])]
        exact h2
      · simp only [String.toList] at hs
        simp [find_text, textsIn, hs]
  | .elem t cls idv ch :: rest => by
      have h1 := find_text_eq r ch
      have h2 := find_text_eq r rest
      simp only [find_text, textsIn]
      rw [List.find?_append, h1, h2]
      cases (textsIn ch).find? (fun s => searchB r s.toList) <;> rfl

/-! ## Domain policies and their construction (`Domain`, `extract_domains`)

A raw configuration record is a JSON object whose fields are strings or
null.  Reading an absent field raises `KeyError` (caught in
`extract_domains`); accessing `.class_` on a record that was never converted
raises `AttributeError` (nowhere caught); `re.compile` on a bad pattern
raises `re.error` (nowhere caught). -/

/-- A Python exception escaping the modelled code. -/
inductive PyErr where
  | attributeError : PyErr
  | reError : PyErr
deriving Repr, DecidableEq

/-- A raw configuration record: field name to string-or-null, as loaded from
`pages.json`. -/
abbrev RawRecord : Type := List (String × Option String)

/-- Python `val[k]` on a dict: `none` is a `KeyError`. -/
def dget : RawRecord → String → Option (Option String)
  | [], _ => none
  | (k, v) :: rest, key => if k = key then some v else dget rest key

/-- The `Domain` class after `extract_domains` has run: in the source the
constructor stores the three raw fields and `extract_domains` then replaces
`value_` by the compiled pattern; the model fuses the two assignments, so
`value_` holds the compiled pattern (or `None`). -/
structure Domain where
  class_ : Option String
  id_ : Option String
  value_ : Option Regex
deriving Repr

/-- A value of the domains mapping: a converted `Domain` object, or the raw
dict left in place when conversion hit a `KeyError`. -/
inductive Entry where
  | conv (d : Domain) : Entry
  | raw (r : RawRecord) : Entry
deriving Repr

/-- The domains mapping (a Python dict, host → entry). -/
abbrev Domains : Type := List (String × Entry)

/-- `re.compile(".*" + value_ + ".*")` on a non-null raw value string. -/
def compileField : Option String → Except PyErr (Option Regex)
  | none => .ok none
  | some vs =>
      match compileValue vs with
      | some rg => .ok (some rg)
      | none => .error .reError

/-- `extract_domains`: convert every record of the raw mapping in order.  A
record missing one of the three fields raises `KeyError`, which is caught —
the entry is left unconverted, a diagnostic is printed and processing
continues.  An `re.error` from compiling the value string of a record whose
fields are all present is not caught and aborts the whole construction.
Returns the mapping (keys in place, values replaced) and the printed
diagnostics, in order. -/
def extract_domains : List (String × RawRecord) → Except PyErr (Domains × List String)
  | [] => .ok ([], [])
  | (k, r) :: rest =>
      match dget r "class_", dget r "id_", dget r "value_" with
      | some c, some i, some v =>
          (match compileField v with
           | .error e => .error e
           | .ok rg =>
              match extract_domains rest with
              | .error e => .error e
              | .ok (m, ds) => .ok ((k, .conv ⟨c, i, rg⟩) :: m, ds))
      | _, _, _ =>
          match extract_domains rest with
          | .error e => .error e
          | .ok (m, ds) =>
              .ok ((k, .raw r) :: m, "Domain formatting error in pages.json." :: ds)

/-! ## The match evaluator (`Scraper.check_stock`)

`check_stock` is modelled after page load and parsing: `doc` stands for
`BeautifulSoup(self.get_loaded_page(link), "lxml")` and `domain_name` for
`urlparse(link).netloc`.  The returned pair is (verdict, printed
diagnostics); `Except.error` is an uncaught Python exception. -/

/-- `self.domains.get(domain_name)`. -/
def lookupDomain : Domains → String → Option Entry
  | [], _ => none
  | (k, e) :: rest, n => if k = n then some e else lookupDomain rest n

/-- Python truthiness of `domain`: `None` was already handled by the caller;
a `Domain` instance is always truthy, a dict is truthy iff non-empty. -/
def entryTruthy : Entry → Bool
  | .conv _ => true
  | .raw r => !(List.isEmpty r)

/-- Attribute access `domain.class_`, `domain.id_`, `domain.value_`: an
unconverted dict has none of these attributes, so the first access raises
`AttributeError`. -/
def getAttrs : Entry → Except PyErr (Option String × Option String × Option Regex)
  | .conv d => .ok (d.class_, d.id_, d.value_)
  | .raw _ => .error .attributeError

/-- Python truthiness of a string-or-null field: `None` and `""` are falsy. -/
def truthyOptStr : Option String → Bool
  | none => false
  | some s => !(s = "")

/-- The value `soup` holds along `check_stock`: the whole parsed document,
a narrowed element (`Tag`), the `NavigableString` a text search returned, or
`None`.  bs4 `Tag.__bool__` is constantly `True`, so truthiness of a scope
coincides with being non-`None` (the string case is never truth-tested: the
text search is the last step before `soup != None`). -/
inductive Scope where
  | whole (nodes : List Node) : Scope
  | tag (n : Node) : Scope
  | found (s : String) : Scope
  | null : Scope
deriving Repr

/-- `soup != None`; by the above it is also `if soup:` for every scope the
flow can truth-test. -/
def scopeNotNone : Scope → Bool
  | .null => false
  | _ => true

/-- The forest `scope.find(...)` searches: all descendants of the scope. -/
def scopeChildren : Scope → List Node
  | .whole ns => ns
  | .tag n => nodeChildren n
  | .found _ => []
  | .null => []

/-- `Scraper.check_stock`, after rendering and parsing.  Mirrors the source:
policy lookup, truthiness gate, validity check, class-over-id narrowing,
value search, and the final `soup != None` verdict.  The inner
`re.compile(domain.value_)` receives an already-compiled pattern and returns
it unchanged, so it appears as the pattern itself. -/
def check_stock (domains : Domains) (doc : List Node) (domain_name : String) :
    Except PyErr (Bool × List String) :=
  match lookupDomain domains domain_name with
  | some domain =>
      if entryTruthy domain then
        match getAttrs domain with
        | .error e => .error e
        | .ok (c, i, v) =>
        if !(truthyOptStr c || truthyOptStr i || v.isSome) then
          .ok (false,
            ["You must provide at least one class, id, or string value to search for on "
              ++ domain_name])
        else
          let soup0 := Scope.whole doc
          -- search by class or id if provided
          let soup1 :=
            if scopeNotNone soup0 && truthyOptStr c then
              match c with
              | some cstr =>
                  (match find_class cstr (scopeChildren soup0) with
                   | some n => Scope.tag n
                   | none => Scope.null)
              | none => Scope.null
            else if scopeNotNone soup0 && truthyOptStr i then
              match i with
              | some istr =>
                  (match find_id istr (scopeChildren soup0) with
                   | some n => Scope.tag n
                   | none => Scope.null)
              | none => Scope.null
            else soup0
          -- search by value if provided
          let soup2 :=
            if scopeNotNone soup1 && v.isSome then
              match v with
              | some rg =>
                  (match find_text rg (scopeChildren soup1) with
                   | some s => Scope.found s
                   | none => Scope.null)
              | none => Scope.null
            else soup1
          .ok (scopeNotNone soup2, [])
      else
        .ok (false, ["Search information for domain: " ++ domain_name ++ " not provided."])
  | none =>
      .ok (false, ["Search information for domain: " ++ domain_name ++ " not provided."])

/-! ## The stabilization monitor (`Scraper.get_loaded_page`)

The render session is a sequence `dom : Nat → String` of DOM observations:
the i-th call to `get_page_hash` reads `dom i`, and the final
`driver.page_source` is one more observation.  `h` models Python's `hash` of
the encoded markup.  The `while` loop has no bound in the source; the model
adds `fuel` counting loop iterations still allowed, and returns `none` when
the loop is still running after `fuel` iterations — so "`none` for every
fuel" is the source's divergence.  The sentinel initialization
(`page_hash = "empty"`, `page_hash_new = ""`) makes the first iteration
unconditional, which the model bakes in by always comparing a fresh pair.
On success the result is (markup returned, comparison pairs performed). -/

def getLoadedPageAux (h : String → Int) (dom : Nat → String) :
    Nat → Nat → Nat → Option (String × Nat)
  | 0, _, _ => none
  | fuel + 1, i, pairs =>
      -- one loop iteration: page_hash = get_page_hash(); sleep; page_hash_new = get_page_hash()
      if h (dom i) = h (dom (i + 1)) then some (dom (i + 2), pairs + 1)
      else getLoadedPageAux h dom fuel (i + 2) (pairs + 1)

/-- `Scraper.get_loaded_page` under `fuel` remaining loop iterations. -/
def get_loaded_page (h : String → Int) (dom : Nat → String) (fuel : Nat) :
    Option (String × Nat) :=
  getLoadedPageAux h dom fuel 0 0

/-! ## The sweep loop of `main`

The observable events of the `while True:` loop body: one `check_stock` per
configured link, then one `delete_cookies` after the whole `for` loop.
`mainRun links fuel pending` interprets the loop with `pending` the links the
current `for` loop has not yet visited, emitting one event per unit of fuel. -/

/-- An observable session event of the main loop. -/
inductive Event where
  | check (link : String) : Event
  | deleteCookies : Event
deriving Repr, DecidableEq

/-- Small-step interpreter of `main`'s loop nest, emitting `fuel` events. -/
def mainRun (links : List String) : Nat → List String → List Event
  | 0, _ => []
  | fuel + 1, [] => Event.deleteCookies :: mainRun links fuel links
  | fuel + 1, l :: rest => Event.check l :: mainRun links fuel rest

/-! ## Supporting notions and lemmas for the claims -/

/-- An entry `check_stock` can consume without raising: a converted policy,
or an empty leftover dict (falsy, so its attributes are never accessed). -/
def entrySafeB : Entry → Bool
  | .conv _ => true
  | .raw r => List.isEmpty r

/-- A raw record with all three required fields present (reading it raises
no `KeyError`). -/
def fieldsOkB (r : RawRecord) : Bool :=
  (dget r "class_").isSome && ((dget r "id_").isSome && (dget r "value_").isSome)

/-- The record's value string (when present and non-null) compiles, so
converting it raises no `re.error`. -/
def valueOkB (r : RawRecord) : Bool :=
  match dget r "value_" with
  | some (some vs) => (compileValue vs).isSome
  | _ => true

/-- What one entry of the mapping becomes: a converted policy when all three
fields are readable, the unconverted record otherwise. -/
def convEntry (r : RawRecord) : Entry :=
  match dget r "class_", dget r "id_", dget r "value_" with
  | some c, some i, some v =>
      .conv ⟨c, i, match v with | none => none | some vs => compileValue vs⟩
  | _, _, _ => .raw r

theorem convEntry_raw (r : RawRecord) (h : fieldsOkB r = false) :
    convEntry r = .raw r := by
  unfold convEntry
  unfold fieldsOkB at h
  cases h1 : dget r "class_" <;> cases h2 : dget r "id_" <;> cases h3 : dget r "value_" <;>
    simp_all

/-- On an input whose readable value strings all compile, `extract_domains`
returns the keys unchanged, each record converted or left raw, and one
diagnostic per malformed record, in input order. -/
theorem extract_domains_eq : ∀ input : List (String × RawRecord),
    (∀ p ∈ input, valueOkB p.2 = true) →
    extract_domains input =
      .ok (input.map (fun p => (p.1, convEntry p.2)),
        (input.filter (fun p => !fieldsOkB p.2)).map
          (fun _ => "Domain formatting error in pages.json."))
  | [], _ => rfl
  | (k, r) :: rest, h => by
      have hr : valueOkB r = true := h (k, r) (by simp)
      have hrest := extract_domains_eq rest (fun p hp => h p (by simp [hp]))
      cases h1 : dget r "class_" with
      | none =>
          simp only [extract_domains, h1, hrest]
          simp [convEntry, h1, fieldsOkB]
      | some c =>
          cases h2 : dget r "id_" with
          | none =>
              simp only [extract_domains, h1, h2, hrest]
              simp [convEntry, h1, h2, fieldsOkB]
          | some i =>
              cases h3 : dget r "value_" with
              | none =>
                  simp only [extract_domains, h1, h2, h3, hrest]
                  simp [convEntry, h1, h2, h3, fieldsOkB]
              | some v =>
                  cases v with
                  | none =>
                      simp only [extract_domains, h1, h2, h3, compileField, hrest]
                      simp [convEntry, h1, h2, h3, fieldsOkB]
                  | some vs =>
                      unfold valueOkB at hr
                      rw [h3] at hr
                      simp only [Option.isSome_iff_exists] at hr
                      obtain ⟨rg, hrg⟩ := hr
                      simp only [extract_domains, h1, h2, h3, compileField, hrg, hrest]
                      simp [convEntry, h1, h2, h3, hrg, fieldsOkB]

/-- A successful `dict.get` pairs the queried key with a value of the
mapping. -/
theorem lookupDomain_mem : ∀ (ds : Domains) (n : String) (e : Entry),
    lookupDomain ds n = some e → (n, e) ∈ ds
  | [], _, _ => by intro h; simp [lookupDomain] at h
  | (k, v) :: rest, n, e => by
      intro h
      unfold lookupDomain at h
      by_cases hk : k = n
      · rw [if_pos hk] at h
        cases h
        simp [hk]
      · rw [if_neg hk] at h
        exact List.mem_cons_of_mem _ (lookupDomain_mem rest n e h)

/-- The stabilization loop (started at an even read index) is still running
after `fuel` iterations exactly when none of those iterations sampled two
equal hashes. -/
theorem getLoadedPageAux_none (h : String → Int) (dom : Nat → String) :
    ∀ (fuel i pairs : Nat),
      getLoadedPageAux h dom fuel (2 * i) pairs = none ↔
        ∀ k < fuel, h (dom (2 * (i + k))) ≠ h (dom (2 * (i + k) + 1)) := by
  intro fuel
  induction fuel with
  | zero => intro i pairs; simp [getLoadedPageAux]
  | succ fuel ih =>
      intro i pairs
      by_cases heq : h (dom (2 * i)) = h (dom (2 * i + 1))
      · simp only [getLoadedPageAux, heq, if_pos rfl]
        constructor
        · intro hcontr; cases hcontr
        · intro hall
          exact absurd heq (by simpa using hall 0 (Nat.succ_pos fuel))
      · have h2 : 2 * i + 2 = 2 * (i + 1) := by omega
        simp only [getLoadedPageAux, heq, if_false, h2]
        rw [ih (i + 1) (pairs + 1)]
        constructor
        · intro hall k hk
          cases k with
          | zero => simpa using heq
          | succ k =>
              have := hall k (by omega)
              simpa [show i + 1 + k = i + (k + 1) by omega] using this
        · intro hall k hk
          have := hall (k + 1) (by omega)
          simpa [show i + (k + 1) = i + 1 + k by omega] using this

/-- One full pass of the `for` loop followed by the cookie deletion. -/
theorem mainRun_block (links : List String) : ∀ (pend : List String) (f : Nat),
    mainRun links (pend.length + 1 + f) pend =
      pend.map Event.check ++ Event.deleteCookies :: mainRun links f links
  | [], f => by
      rw [show List.length ([] : List String) + 1 + f = f + 1 by
        simp only [List.length_nil]; omega]
      simp [mainRun]
  | l :: rest, f => by
      rw [show (l :: rest).length + 1 + f = (rest.length + 1 + f) + 1 by simp; omega]
      simp only [mainRun, List.map_cons, List.cons_append]
      rw [mainRun_block links rest f]

/-- `Event.check` events are never counted as cookie deletions. -/
theorem count_deleteCookies_map_check (links : List String) :
    (links.map Event.check).count Event.deleteCookies = 0 := by
  rw [List.count_eq_zero]
  intro hmem
  obtain ⟨l, _, hl⟩ := List.mem_map.mp hmem
  cases hl

/-- `(l.find? p).isSome` is `l.any p`: the first hit exists exactly when some
element satisfies the filter. -/
theorem find?_isSome_eq_any {α : Type} (p : α → Bool) : ∀ l : List α,
    (l.find? p).isSome = l.any p
  | [] => rfl
  | a :: l => by
      cases ha : p a
      · rw [List.find?_cons_of_neg _ (by simp [ha]), find?_isSome_eq_any p l]
        simp [ha]
      · rw [List.find?_cons_of_pos _ ha]
        simp [ha]

/-! ## The claims -/

/-- C2: the stabilization loop of `get_loaded_page`, run on a session whose
successive DOM reads are A, A, … (already stable), returns after exactly one
comparison pair with the markup A, for any remaining fuel; on a session
whose reads are A, B, B, … (one mutation, then stable), it returns after
exactly two comparison pairs with the markup read once both consecutive
samples are B — provided the two markups hash apart. -/
theorem claim_C2 (h : String → Int) (A B : String) (hAB : h A ≠ h B) (fuel : Nat) :
    get_loaded_page h (fun _ => A) (fuel + 1) = some (A, 1) ∧
    get_loaded_page h (fun i => if i = 0 then A else B) (fuel + 2) = some (B, 2) := by
  constructor
  · simp [get_loaded_page, getLoadedPageAux]
  · simp [get_loaded_page, getLoadedPageAux, hAB]

/-- Witness for C2 at a concrete hash and concrete markups. -/
theorem claim_C2_witness :
    get_loaded_page (fun s => (s.length : Int)) (fun _ => "A") 1 = some ("A", 1) ∧
    get_loaded_page (fun s => (s.length : Int)) (fun i => if i = 0 then "A" else "BB") 2 =
      some ("BB", 2) :=
  claim_C2 (fun s => (s.length : Int)) "A" "BB" (by decide) 0

/-- C6: `get_loaded_page` has no iteration bound or timeout: under any fuel
it is still looping (`none`) exactly when no iteration so far sampled two
equal hashes — so on a session whose reads never produce an equal
consecutive pair it loops for every fuel, and it returns as soon as one
iteration observes two equal-hash samples. -/
theorem claim_C6 (h : String → Int) (dom : Nat → String) (fuel : Nat) :
    get_loaded_page h dom fuel = none ↔
      ∀ k < fuel, h (dom (2 * k)) ≠ h (dom (2 * k + 1)) := by
  have := getLoadedPageAux_none h dom fuel 0 0
  simpa [get_loaded_page] using this

/-- C9: `main`'s loop interleaves events as full sweeps: running the loop for
`n` sweeps' worth of events yields `n` blocks, each all the configured links
checked in order followed by exactly one cookie deletion — so cookies are
deleted exactly once per sweep, after the last link and before the first
link of the next sweep, never between two links of one sweep. -/
theorem claim_C9 (links : List String) (n : Nat) :
    mainRun links ((links.length + 1) * n) links =
      (List.replicate n (links.map Event.check ++ [Event.deleteCookies])).flatten ∧
    (mainRun links ((links.length + 1) * n) links).count Event.deleteCookies = n := by
  have key : ∀ m : Nat, mainRun links ((links.length + 1) * m) links =
      (List.replicate m (links.map Event.check ++ [Event.deleteCookies])).flatten := by
    intro m
    induction m with
    | zero => simp [mainRun]
    | succ m ih =>
        rw [show (links.length + 1) * (m + 1) = links.length + 1 + (links.length + 1) * m by
          ring]
        rw [mainRun_block links links ((links.length + 1) * m), ih]
        simp [List.replicate_succ]
  refine ⟨key n, ?_⟩
  rw [key n]
  induction n with
  | zero => simp
  | succ n ih =>
      simp only [List.replicate_succ, List.flatten_cons, List.count_append, ih]
      rw [count_deleteCookies_map_check]
      simp [Nat.add_comm]

/-- C8 (amended): on a raw mapping whose readable, non-null value strings
all compile, `extract_domains` converts every well-formed record to a
policy, and on any required-field access failure it skips the record,
leaves it unconverted, prints one diagnostic, and continues with all
remaining records — the result covers every input entry in order. -/
theorem claim_C8 (input : List (String × RawRecord))
    (h : ∀ p ∈ input, valueOkB p.2 = true) :
    extract_domains input =
      .ok (input.map (fun p => (p.1, convEntry p.2)),
        (input.filter (fun p => !fieldsOkB p.2)).map
          (fun _ => "Domain formatting error in pages.json.")) :=
  extract_domains_eq input h

/-- C8 counterexample: a well-formed record (all three fields readable)
whose value string does not compile aborts the whole construction with an
uncaught `re.error` instead of being converted, refuting "converts each
well-formed entry into a policy record". -/
theorem claim_C8_counterexample :
    extract_domains
      [("shop.example.com", [("class_", none), ("id_", none), ("value_", some "(")])] =
      .error .reError := rfl

/-- A two-entry configuration: a well-formed record followed by a malformed
one (wrong field name). -/
def c8input : List (String × RawRecord) :=
  [("a.example.com", [("class_", some "stock"), ("id_", none), ("value_", none)]),
   ("b.example.com", [("class", some "x")])]

/-- Witness for C8: the malformed second record is skipped with one
diagnostic while the first is converted. -/
theorem claim_C8_witness :
    extract_domains c8input =
      .ok (c8input.map (fun p => (p.1, convEntry p.2)),
        (c8input.filter (fun p => !fieldsOkB p.2)).map
          (fun _ => "Domain formatting error in pages.json.")) :=
  claim_C8 c8input (by decide)

/-- C10 (amended): on a raw mapping whose readable, non-null value strings
all compile, `extract_domains` returns a mapping with exactly the input's
key sequence — nothing added or removed — and every key whose record failed
conversion is still bound to its original raw record. -/
theorem claim_C10 (input : List (String × RawRecord))
    (h : ∀ p ∈ input, valueOkB p.2 = true) :
    ∃ out ds, extract_domains input = .ok (out, ds) ∧
      out.map Prod.fst = input.map Prod.fst ∧
      ∀ k r, (k, r) ∈ input → fieldsOkB r = false → (k, Entry.raw r) ∈ out := by
  refine ⟨input.map (fun p => (p.1, convEntry p.2)), _, extract_domains_eq input h, ?_, ?_⟩
  · clear h
    induction input with
    | nil => rfl
    | cons p rest ih => simp [ih]
  · intro k r hmem hbad
    have hin : (k, convEntry r) ∈ input.map (fun p => (p.1, convEntry p.2)) :=
      List.mem_map.mpr ⟨(k, r), hmem, rfl⟩
    rw [convEntry_raw r hbad] at hin
    exact hin

/-- C10 counterexample: an input whose (sole) record carries an
uncompilable value string makes `extract_domains` raise instead of
returning any mapping at all. -/
theorem claim_C10_counterexample :
    extract_domains
      [("tickets.example.com",
        [("class_", some "x"), ("id_", none), ("value_", some "[ab")])] =
      .error .reError := rfl

/-- A two-entry configuration: a malformed record followed by a well-formed
one with a compilable value string. -/
def c10input : List (String × RawRecord) :=
  [("c.example.com", [("id_", some "buy")]),
   ("d.example.com", [("class_", none), ("id_", none), ("value_", some "stock")])]

/-- Witness for C10 at a concrete mapping with one unconvertible record. -/
theorem claim_C10_witness :
    ∃ out ds, extract_domains c10input = .ok (out, ds) ∧
      out.map Prod.fst = c10input.map Prod.fst ∧
      ∀ k r, (k, r) ∈ c10input → fieldsOkB r = false → (k, Entry.raw r) ∈ out :=
  claim_C10 c10input (by decide)

/-- C7 (amended): `check_stock` returns a boolean verdict plus printed
diagnostics and never raises, for every domains mapping whose entries are
converted policies or empty leftover records — for any parsed page and any
host. -/
theorem claim_C7 (domains : Domains) (doc : List Node) (host : String)
    (hsafe : ∀ p ∈ domains, entrySafeB p.2 = true) :
    ∃ b msgs, check_stock domains doc host = .ok (b, msgs) := by
  cases hl : lookupDomain domains host with
  | none =>
      exact ⟨false, ["Search information for domain: " ++ host ++ " not provided."],
        by simp [check_stock, hl]⟩
  | some e =>
      have hmem := lookupDomain_mem domains host e hl
      have hse : entrySafeB e = true := hsafe (host, e) hmem
      cases e with
      | raw r =>
          have hr : r = [] := by
            unfold entrySafeB at hse
            exact List.isEmpty_iff.mp hse
          subst hr
          exact ⟨false, ["Search information for domain: " ++ host ++ " not provided."],
            by simp [check_stock, hl, entryTruthy]⟩
      | conv d =>
          simp only [check_stock, hl, entryTruthy, if_true, getAttrs]
          split
          · exact ⟨_, _, rfl⟩
          · exact ⟨_, _, rfl⟩

/-- C7 counterexample: a mapping `extract_domains` really produces — one
nonempty record left unconverted by a `KeyError` — makes `check_stock`
raise `AttributeError` at the first attribute access, escaping the core. -/
theorem claim_C7_counterexample :
    extract_domains [("shop.example.com", [("class", some "stock")])] =
      .ok ([("shop.example.com", Entry.raw [("class", some "stock")])],
        ["Domain formatting error in pages.json."]) ∧
    check_stock [("shop.example.com", Entry.raw [("class", some "stock")])] []
      "shop.example.com" = .error .attributeError :=
  ⟨rfl, rfl⟩

/-- Witness for C7 on a concrete safe mapping. -/
theorem claim_C7_witness :
    ∃ b msgs, check_stock
      [("a.example.com", Entry.conv ⟨some "stock", none, none⟩),
       ("b.example.com", Entry.raw [])] [] "a.example.com" = .ok (b, msgs) :=
  claim_C7 _ _ _ (by decide)

/-- C5: whenever the host resolves to no policy, or to a policy with none of
the class, id and value criteria set, `check_stock` returns false together
with one printed diagnostic naming the host, without raising — whatever the
page contents. -/
theorem claim_C5 (domains : Domains) (doc : List Node) (host : String)
    (h : lookupDomain domains host = none ∨
      ∃ d : Domain, lookupDomain domains host = some (.conv d) ∧
        d.class_ = none ∧ d.id_ = none ∧ d.value_ = none) :
    ∃ msg, check_stock domains doc host = .ok (false, [msg]) ∧
      host.toList <:+: msg.toList := by
  rcases h with hl | ⟨d, hl, hc, hi, hv⟩
  · refine ⟨"Search information for domain: " ++ host ++ " not provided.",
      by simp [check_stock, hl], ?_⟩
    exact ⟨"Search information for domain: ".toList, " not provided.".toList, rfl⟩
  · refine ⟨"You must provide at least one class, id, or string value to search for on "
        ++ host,
      by simp [check_stock, hl, entryTruthy, getAttrs, hc, hi, hv, truthyOptStr], ?_⟩
    refine ⟨"You must provide at least one class, id, or string value to search for on ".toList,
      [], ?_⟩
    simp

/-- Witness for C5: an empty mapping leaves any host unresolvable. -/
theorem claim_C5_witness :
    ∃ msg, check_stock [] [] "shop.example.com" = .ok (false, [msg]) ∧
      "shop.example.com".toList <:+: msg.toList :=
  claim_C5 [] [] "shop.example.com" (Or.inl rfl)

/-- C3: with both a class and an id selector configured (and any value
criterion), on a page with no element of that class, `check_stock` answers
false even when an element with the configured id is present: only the
class selector is applied and the id selector is never consulted. -/
theorem claim_C3 (doc : List Node) (host cls idv : String) (rv : Option Regex)
    (hcls : cls ≠ "") (hidv : idv ≠ "")
    (hnoclass : ∀ t ∈ elemsIn doc, hasClass cls t = false)
    (hid : ∃ t ∈ elemsIn doc, hasId idv t = true) :
    check_stock [(host, .conv ⟨some cls, some idv, rv⟩)] doc host = .ok (false, []) := by
  have hfc : find_class cls doc = none := by
    rw [find_class_eq]
    exact List.find?_eq_none.mpr fun t ht => by simp [hnoclass t ht]
  simp [check_stock, lookupDomain, entryTruthy, getAttrs, truthyOptStr, hcls, hfc,
    scopeNotNone, scopeChildren]

/-- Witness for C3: the id-bearing element is present, the class is absent,
and the verdict is false. -/
theorem claim_C3_witness :
    check_stock [("shop.example.com", Entry.conv ⟨some "price", some "buy", none⟩)]
      [Node.elem "div" [] (some "buy") []] "shop.example.com" = .ok (false, []) :=
  claim_C3 [Node.elem "div" [] (some "buy") []] "shop.example.com" "price" "buy" none
    (by decide) (by decide)
    (by simp [elemsIn, hasClass])
    (⟨Node.elem "div" [] (some "buy") [], by simp [elemsIn], by decide⟩)

/-- C4 (amended): for every raw value string made of plain literal
characters (no regex metacharacter), the compiled pattern `search`-matches a
text exactly when the raw string occurs somewhere inside it as a contiguous,
case-sensitive substring. -/
theorem claim_C4 (v text : String) (h : ∀ c ∈ v.toList, isLitChar c = true) :
    patternMatches v text = containsB v.toList text.toList := by
  unfold patternMatches
  rw [compileValue_lit v h]
  exact searchB_wrap_litSeq v.toList text.toList

/-- C4 counterexample: the raw string `"."` is a regex metacharacter, so its
compiled pattern matches the text `"a"` although `"."` does not occur in it
as a substring — the claim's universal "contains" reading fails. -/
theorem claim_C4_counterexample :
    patternMatches "." "a" = true ∧ containsB ".".toList "a".toList = false :=
  ⟨rfl, rfl⟩

/-- Witness for C4 at the spec's own example: pattern `"5"` against
`"Qty: 15 left"`, where the substring test indeed succeeds. -/
theorem claim_C4_witness :
    patternMatches "5" "Qty: 15 left" = containsB "5".toList "Qty: 15 left".toList ∧
    containsB "5".toList "Qty: 15 left".toList = true :=
  ⟨claim_C4 "5" "Qty: 15 left" (by decide), rfl⟩

/-- The policy `classSelector = "price"`, `valuePattern = "SOLD"` of C1, as
`extract_domains` builds it. -/
def soldPolicy : Entry := .conv ⟨some "price", none, compileValue "SOLD"⟩

/-- The full behavior of `check_stock` under `soldPolicy`: the verdict is
"the first `price`-classed element exists and some text node inside it has
`SOLD` as a substring", with no diagnostics and no exception. -/
theorem check_stock_sold_spec (doc : List Node) :
    check_stock [("shop.example.com", soldPolicy)] doc "shop.example.com" =
      .ok ((((elemsIn doc).filter (hasClass "price")).head?.elim false fun t =>
        (textsIn (nodeChildren t)).any fun s => containsB "SOLD".toList s.toList), []) := by
  have hcv : compileValue "SOLD" =
      some (.cat dotStar (.cat (litSeq "SOLD".toList) dotStar)) :=
    compileValue_lit "SOLD" (by decide)
  rw [List.filter_head?, ← find_class_eq]
  simp only [check_stock]
  rw [show lookupDomain [("shop.example.com", soldPolicy)] "shop.example.com"
      = some soldPolicy by simp [lookupDomain]]
  simp only [soldPolicy, entryTruthy, if_true, getAttrs, hcv]
  cases hfc : find_class "price" doc with
  | none => simp [truthyOptStr, scopeNotNone, scopeChildren, hfc]
  | some t =>
      have hft : find_text (.cat dotStar (.cat (litSeq ['S', 'O', 'L', 'D']) dotStar))
          (nodeChildren t) =
          (textsIn (nodeChildren t)).find? fun s => containsB ['S', 'O', 'L', 'D'] s.data := by
        rw [find_text_eq]
        congr 1
        funext s
        exact searchB_wrap_litSeq ['S', 'O', 'L', 'D'] s.data
      simp [truthyOptStr, scopeNotNone, scopeChildren, hfc]
      rw [hft, ← find?_isSome_eq_any]
      cases List.find? (fun s => containsB ['S', 'O', 'L', 'D'] s.data)
          (textsIn (nodeChildren t)) with
      | none => rfl
      | some s => rfl

/-- C1 (amended): with class `"price"` and value `"SOLD"` configured,
`check_stock` returns true exactly when the **first** element bearing class
`price` in document order exists and contains, among its descendant text
nodes, one whose text has `"SOLD"` as a substring; in particular it returns
false, without raising and without diagnostics, whenever no `price` element
exists — even if `SOLD` occurs elsewhere — because the null narrowed scope
short-circuits the value search. -/
theorem claim_C1 (doc : List Node) :
    check_stock [("shop.example.com", soldPolicy)] doc "shop.example.com" =
      .ok ((((elemsIn doc).filter (hasClass "price")).head?.elim false fun t =>
        (textsIn (nodeChildren t)).any fun s => containsB "SOLD".toList s.toList), []) :=
  check_stock_sold_spec doc

/-- The parsed page `<div class="price">cheap</div>
<div class="price">Item is SOLD</div>` (inside the html/body pair the lxml
parser adds). -/
def c1doc : List Node :=
  [Node.elem "html" [] none [Node.elem "body" [] none [
    Node.elem "div" ["price"] none [Node.text "cheap"],
    Node.elem "div" ["price"] none [Node.text "Item is SOLD"]]]]

/-- C1 counterexample: the page does contain an element of class `price`
whose text matches `SOLD` (the second one), yet `check_stock` answers false
because only the first `price` element — which lacks `SOLD` — is searched;
the claimed equivalence over all markups fails. -/
theorem claim_C1_counterexample :
    check_stock [("shop.example.com", soldPolicy)] c1doc "shop.example.com" =
      .ok (false, []) ∧
    (elemsIn c1doc).any (fun t => hasClass "price" t &&
      (textsIn (nodeChildren t)).any fun s => containsB "SOLD".toList s.toList) = true := by
  constructor
  · rw [check_stock_sold_spec c1doc]
    simp [c1doc, elemsIn, textsIn, hasClass, nodeChildren]
    decide
  · simp [c1doc, elemsIn, textsIn, hasClass, nodeChildren]
    decide

end StockScraper
